import Mathlib

/-!
Shallow embedding of the grid layout engine in `src/table.rs`
(crate iced_table_fluid).

Scalar `f32` values are modelled as rationals; the small concrete values
used by the algorithm and this development are exact in `f32`, so rational
arithmetic coincides with the source on them.  `u16` fill factors and
`usize` counts are modelled as naturals, with `Nat` truncated subtraction
standing for `usize::saturating_sub`.

Cells are external collaborators (spec section 6): a cell carries its size
policies, a height size-hint, and an abstract measurement function from
layout limits to a reported size, modelling the delegated
`Widget::layout` call.  The host toolkit types `Length`, `Limits` and
their `resolve` semantics are modelled after the iced boundary the spec
describes (measure a cell given width/height bounds; clamped resolution
of a policy against bounds); `f32::clamp` is modelled as the mathematical
clamp, per the spec contract that measurement never produces negative
sizes even when given negative bounds.
-/

/-- The iced `Length` size policy: fill, proportional fill, shrink to
content, or a fixed number of pixels. -/
inductive Length where
  | fill : Length
  | fillPortion : Nat → Length
  | shrink : Length
  | fixed : ℚ → Length
deriving DecidableEq

/-- The source `Length::fill_factor`: 1 for fill, the factor for a portion, 0 for
shrink and fixed. -/
def Length.fillFactor : Length → Nat
  | .fill => 1
  | .fillPortion n => n
  | .shrink => 0
  | .fixed _ => 0

/-- The source `Length::is_fill`: whether the fill factor is non-zero. -/
def Length.isFill (l : Length) : Bool :=
  l.fillFactor != 0

/-- The source `Length::enclose`: fill wins over everything, otherwise keep the left
operand. -/
def Length.enclose : Length → Length → Length
  | .fill, _ => .fill
  | .fillPortion _, _ => .fill
  | _, .fill => .fill
  | _, .fillPortion _ => .fill
  | a, _ => a

/-- Horizontal alignment of a column. -/
inductive HAlign where
  | left : HAlign
  | center : HAlign
  | right : HAlign
deriving DecidableEq

/-- Vertical alignment of a column. -/
inductive VAlign where
  | top : VAlign
  | center : VAlign
  | bottom : VAlign
deriving DecidableEq

/-- Executable model of `f32::max` on the exactly represented values in play, written as an
executable conditional. -/
def maxQ (a b : ℚ) : ℚ :=
  if a ≤ b then b else a

/-- Executable model of `f32::min` on the exactly represented values in play, written as an
executable conditional. -/
def minQ (a b : ℚ) : ℚ :=
  if a ≤ b then a else b

/-- The function `maxQ` is the lattice max. -/
theorem maxQ_eq_max (a b : ℚ) : maxQ a b = max a b :=
  (max_def a b).symm

/-- The function `minQ` is the lattice min. -/
theorem minQ_eq_min (a b : ℚ) : minQ a b = min a b :=
  (min_def a b).symm

/-- Mathematical clamp of `v` into `[lo, hi]`, modelling `f32::clamp`
under the no-negative-size measurement contract of spec section 7. -/
def clampQ (lo hi v : ℚ) : ℚ :=
  maxQ lo (minQ hi v)

/-- Layout limits: minimum and maximum size on each axis, modelling the
toolkit `layout::Limits` as seen through the measurement boundary. -/
structure Limits where
  minW : ℚ
  minH : ℚ
  maxW : ℚ
  maxH : ℚ
deriving DecidableEq

/-- The source `Limits::width`: a fixed width pins both bounds to the clamped
amount; shrink and fill leave the bounds unchanged. -/
def Limits.widthLen (l : Limits) : Length → Limits
  | .fixed a =>
    let a := clampQ l.minW l.maxW a
    { l with minW := a, maxW := a }
  | _ => l

/-- The source `Limits::height`: a fixed height pins both bounds to the clamped
amount; shrink and fill leave the bounds unchanged. -/
def Limits.heightLen (l : Limits) : Length → Limits
  | .fixed a =>
    let a := clampQ l.minH l.maxH a
    { l with minH := a, maxH := a }
  | _ => l

/-- The source `Limits::resolve`: fill takes the maximum, fixed clamps the amount,
shrink clamps the intrinsic size reported by the widget. -/
def Limits.resolve (l : Limits) (w h : Length) (sz : ℚ × ℚ) : ℚ × ℚ :=
  (match w with
    | .fill => l.maxW
    | .fillPortion _ => l.maxW
    | .fixed a => clampQ l.minW l.maxW a
    | .shrink => clampQ l.minW l.maxW sz.1,
   match h with
    | .fill => l.maxH
    | .fillPortion _ => l.maxH
    | .fixed a => clampQ l.minH l.maxH a
    | .shrink => clampQ l.minH l.maxH sz.2)

/-- A cell: its declared size policies (`Widget::size`), the height
component of its `size_hint`, and its measurement behaviour
(`Widget::layout` returning the laid-out node size), abstract per the
spec boundary contract. -/
structure Cell where
  widthPolicy : Length
  heightPolicy : Length
  sizeHintH : Length
  measure : Limits → ℚ × ℚ

/-- The per-column data retained by the table (struct `Column_`). -/
structure Column_ where
  width : Length
  alignX : HAlign
  alignY : VAlign

/-- A column descriptor as passed to the builder (struct `Column`):
header cell, view function producing one cell per row item, and the
declared width and alignments. -/
structure ColumnDesc (α : Type) where
  header : Cell
  view : α → Cell
  width : Length
  alignX : HAlign
  alignY : VAlign

/-- The `column()` helper: shrink width, left and top alignment. -/
def mkColumn {α : Type} (header : Cell) (view : α → Cell) : ColumnDesc α :=
  { header := header, view := view, width := .shrink,
    alignX := .left, alignY := .top }

/-- The table widget state relevant to layout and drawing (struct
`Table`): column data, flattened row-major cell list, size policies,
maximum width, paddings and separator thicknesses. -/
structure Table where
  columns : List Column_
  cells : List Cell
  width : Length
  height : Length
  maxWidth : Length
  paddingX : ℚ
  paddingY : ℚ
  separatorX : ℚ
  separatorY : ℚ

/-- The source `Table::new`: fold the declared column widths with `enclose` starting
from shrink, push all header cells first, then one cell per row item and
column in row-major order, folding the data cells height hints into the
table height; if the width fold stayed shrink, force the first column
width to fill; paddings default to 10 and 5, separators to 1, and the
maximum width to fill. -/
def Table.new {α : Type} (cds : List (ColumnDesc α)) (rowsData : List α) : Table :=
  let width := cds.foldl (fun w c => w.enclose c.width) .shrink
  let height := rowsData.foldl
    (fun h r => cds.foldl (fun h2 c => h2.enclose (c.view r).sizeHintH) h) .shrink
  let columns0 := cds.map (fun c =>
    ({ width := c.width, alignX := c.alignX, alignY := c.alignY } : Column_))
  let columns :=
    if width = Length.shrink then
      match columns0 with
      | [] => ([] : List Column_)
      | c :: cs => { c with width := Length.fill } :: cs
    else columns0
  let cells := cds.map (fun c => c.header)
    ++ rowsData.flatMap (fun r => cds.map (fun c => c.view r))
  { columns := columns, cells := cells, width := width, height := height,
    maxWidth := Length.fill, paddingX := 10, paddingY := 5,
    separatorX := 1, separatorY := 1 }

/-- Builder setter `Table::width`. -/
def Table.setWidth (t : Table) (w : Length) : Table :=
  { t with width := w }

/-- Builder setter `Table::max_width`. -/
def Table.setMaxWidth (t : Table) (w : Length) : Table :=
  { t with maxWidth := w }

/-- Builder setter `Table::padding_x`. -/
def Table.setPaddingX (t : Table) (p : ℚ) : Table :=
  { t with paddingX := p }

/-- Builder setter `Table::padding_y`. -/
def Table.setPaddingY (t : Table) (p : ℚ) : Table :=
  { t with paddingY := p }

/-- Builder setter `Table::padding` (both axes). -/
def Table.setPadding (t : Table) (p : ℚ) : Table :=
  (t.setPaddingX p).setPaddingY p

/-- Builder setter `Table::separator_x`. -/
def Table.setSeparatorX (t : Table) (s : ℚ) : Table :=
  { t with separatorX := s }

/-- Builder setter `Table::separator_y`. -/
def Table.setSeparatorY (t : Table) (s : ℚ) : Table :=
  { t with separatorY := s }

/-- Builder setter `Table::separator` (both axes). -/
def Table.setSeparator (t : Table) (s : ℚ) : Table :=
  (t.setSeparatorX s).setSeparatorY s

/-- Split the flat row-major cell list into `r` rows of `c` cells each,
per the structural invariant of spec section 3 (cell list length is an
exact multiple of the column count). -/
def chunkRows (c : Nat) : List Cell → Nat → List (List Cell)
  | _, 0 => []
  | cs, r + 1 => cs.take c :: chunkRows c (cs.drop c) r

/-- Pass 1 measurement of one cell: limits from zero to the remaining
available space at the cursor, width forced to shrink, resolved with
shrink on both axes (lines 290 to 294 of the source). -/
def pass1Cell (availW availH x y : ℚ) (c : Cell) : ℚ × ℚ :=
  let lims := (({ minW := 0, minH := 0, maxW := availW - x, maxH := availH - y }
    : Limits).widthLen Length.shrink)
  lims.resolve Length.shrink Length.shrink (c.measure lims)

/-- Pass 1 walk of one row: measure each cell at the advancing x cursor
and collect the resolved sizes, the cursor advancing by the measured
width plus the horizontal spacing. -/
def pass1RowGo (availW availH spX y : ℚ) : ℚ → List Cell → List (ℚ × ℚ)
  | _, [] => []
  | x, c :: cs =>
    let sz := pass1Cell availW availH x y c
    sz :: pass1RowGo availW availH spX y (x + sz.1 + spX) cs

/-- Pass 1 row intrinsic height: running max of measured heights over the
cells whose height factor is zero and whose height policy is not fill
(line 300 of the source). -/
def rowIntrinsicH : List (Cell × (ℚ × ℚ)) → ℚ → ℚ
  | [], h => h
  | (c, sz) :: rest, h =>
    rowIntrinsicH rest
      (if c.heightPolicy.fillFactor = 0 ∧ c.heightPolicy.isFill = false
        then maxQ h sz.2 else h)

/-- Pass 1 row factor: running max of the declared height fill factors of
the cells of the row (line 287 of the source). -/
def rowFactorOf : List Cell → Nat → Nat
  | [], f => f
  | c :: cs, f => rowFactorOf cs (max f c.heightPolicy.fillFactor)

/-- Pass 1 over all rows: thread the y cursor and the per-column running
width maxima, and emit for each row its intrinsic height, its factor and
its list of measured sizes.  The y advance and the fluid accounting of a
row happen in the source at the start of the following row (or, for the
factors of the last row, after the loop); both depend only on the
finalized row values, so they are performed here at the end of each row. -/
def pass1Go (availW availH spX spY padX : ℚ) :
    ℚ → List ℚ → List (List Cell) →
      List ℚ × (List (ℚ × Nat) × List (List (ℚ × ℚ)))
  | _, colsAcc, [] => (colsAcc, ([], []))
  | y, colsAcc, r :: rs =>
    let szs := pass1RowGo availW availH spX y padX r
    let colsAcc2 := List.zipWith maxQ colsAcc (szs.map Prod.fst)
    let h := rowIntrinsicH (r.zip szs) 0
    let f := rowFactorOf r 0
    let rest := pass1Go availW availH spX spY padX (y + h + spY) colsAcc2 rs
    (rest.1, ((h, f) :: rest.2.1, szs :: rest.2.2))

/-- The running totals of pass 1: for each finalized row with a non-zero
factor, add its intrinsic height to the total fluid height and its factor
to the total row factors (lines 277 to 281 and 311 to 314). -/
def fluidTotals : List (ℚ × Nat) → ℚ × Nat → ℚ × Nat
  | [], acc => acc
  | (h, f) :: rest, acc =>
    fluidTotals rest (if f ≠ 0 then (acc.1 + h, acc.2 + f) else acc)

/-- Pass 2 measurement of one cell: the height bound is the current row
metric for a zero-factor fill cell, the remaining available height
clamped to zero for other zero-factor cells, and the height unit times
the factor for fluid cells; the width is forced to the fixed shared
column width (lines 361 to 382). -/
def pass2Cell (availW availH hu x y curH w : ℚ) (c : Cell) : ℚ × ℚ :=
  let hf := c.heightPolicy.fillFactor
  let maxH :=
    if hf = 0 then
      (if c.heightPolicy.isFill then curH else maxQ (availH - y) 0)
    else hu * (hf : ℚ)
  let lims := (({ minW := 0, minH := 0, maxW := availW - x, maxH := maxH }
    : Limits).widthLen (Length.fixed w))
  lims.resolve (Length.fixed w) Length.shrink (c.measure lims)

/-- Pass 2 walk of one row, threading the x cursor (advanced by the fixed
column width plus spacing) and the running row height maximum. -/
def pass2RowGo (availW availH hu y spX : ℚ) : ℚ → ℚ → List (Cell × ℚ) → ℚ
  | _, h, [] => h
  | x, h, (c, w) :: rest =>
    let sz := pass2Cell availW availH hu x y h w c
    pass2RowGo availW availH hu y spX (x + w + spX) (maxQ h sz.2) rest

/-- Pass 2 over all rows: each row starts from its pass 1 intrinsic
height and is updated to the running max of the remeasured heights; the y
cursor advances by the updated height plus vertical spacing. -/
def pass2Go (availW availH spX spY padX hu : ℚ) (ws : List ℚ) :
    ℚ → List (List Cell) → List ℚ → List ℚ
  | _, [], _ => []
  | _, _ :: _, [] => []
  | y, r :: rs, h0 :: hs =>
    let h := pass2RowGo availW availH hu y spX padX h0 (r.zip ws)
    h :: pass2Go availW availH spX spY padX hu ws (y + h + spY) rs hs

/-- Pass 3 walk of one row: assign each cell its origin at the advancing
x cursor and return the final cursor value. -/
def pass3RowGo (spX y : ℚ) : ℚ → List ℚ → List (ℚ × ℚ) × ℚ
  | x, [] => ([], x)
  | x, w :: ws =>
    let rest := pass3RowGo spX y (x + w + spX) ws
    ((x, y) :: rest.1, rest.2)

/-- Pass 3 over all rows: the x cursor resets to the left padding at each
row and the y cursor advances by the row height plus vertical spacing;
the second component is the x cursor after the last processed cell. -/
def pass3Go (spX spY padX : ℚ) (ws : List ℚ) :
    ℚ → ℚ → List ℚ → List (List (ℚ × ℚ)) × ℚ
  | x, _, [] => ([], x)
  | _, y, h :: hs =>
    let row := pass3RowGo spX y padX ws
    let rest := pass3Go spX spY padX ws row.2 (y + h + spY) hs
    (row.1 :: rest.1, rest.2)

/-- Everything `Table::layout` computes: the pass 1 metrics and running
totals, the width-sharing quantities, the height unit, the final column
widths and row heights, the cell origins of pass 3, and the resolved
overall size. -/
structure LayoutOut where
  intrinsicCols : List ℚ
  rowData : List (ℚ × Nat)
  p1Sizes : List (List (ℚ × ℚ))
  totalFluid : ℚ
  totalFactors : Nat
  contentAvailable : ℚ
  remaining : ℚ
  share : ℚ
  metricsCols : List ℚ
  heightUnit : ℚ
  metricsRows : List ℚ
  origins : List (List (ℚ × ℚ))
  width : ℚ
  height : ℚ

/-- The rows of a table: its flat cell list split into
`cells.len / columns.len` rows of `columns.len` cells. -/
def Table.rowsOf (t : Table) : List (List Cell) :=
  chunkRows t.columns.length t.cells (t.cells.length / t.columns.length)

/-- The incoming limits narrowed by the table width and height policies
(line 243 of the source). -/
def Table.limsOf (t : Table) (l : Limits) : Limits :=
  (l.widthLen t.width).heightLen t.height

/-- The available width, from the narrowed limits (line 244). -/
def Table.availWOf (t : Table) (l : Limits) : ℚ :=
  (t.limsOf l).maxW

/-- The available height, from the narrowed limits (line 244). -/
def Table.availHOf (t : Table) (l : Limits) : ℚ :=
  (t.limsOf l).maxH

/-- The maximum width, from the narrowed limits further narrowed by the
`max_width` policy (line 245). -/
def Table.maxWOf (t : Table) (l : Limits) : ℚ :=
  (((t.limsOf l).widthLen t.maxWidth).heightLen t.height).maxW

/-- The horizontal gap: per-column left and right padding plus the
separator thickness (line 259). -/
def Table.spXOf (t : Table) : ℚ :=
  t.paddingX * 2 + t.separatorX

/-- The vertical gap: per-row top and bottom padding plus the separator
thickness (line 260). -/
def Table.spYOf (t : Table) : ℚ :=
  t.paddingY * 2 + t.separatorY

/-- The row count: cell count divided by column count (line 241). -/
def Table.rowsCount (t : Table) : Nat :=
  t.cells.length / t.columns.length

/-- The complete first pass of `Table::layout` for a table under given
limits, starting from a zero column-width vector and the top padding. -/
def Table.pass1Of (t : Table) (l : Limits) :
    List ℚ × (List (ℚ × Nat) × List (List (ℚ × ℚ))) :=
  pass1Go (t.availWOf l) (t.availHOf l) t.spXOf t.spYOf t.paddingX
    t.paddingY (List.replicate t.columns.length 0) t.rowsOf

/-- The pass 1 running totals: total fluid intrinsic height and total row
factors. -/
def Table.totsOf (t : Table) (l : Limits) : ℚ × Nat :=
  fluidTotals (t.pass1Of l).2.1 (0, 0)

/-- The `content_available` of the width sharing step (lines 319 to
322). -/
def Table.contentAvailableOf (t : Table) (l : Limits) : ℚ :=
  maxQ 0 (minQ (t.availWOf l) (t.maxWOf l) - t.paddingX * 2
    - t.spXOf * ((t.columns.length - 1 : Nat) : ℚ))

/-- The `remaining` of the width sharing step (line 325). -/
def Table.remainingOf (t : Table) (l : Limits) : ℚ :=
  maxQ 0 (t.contentAvailableOf l - (t.pass1Of l).1.sum)

/-- The per-column `share` of the width sharing step (lines 326 to
330). -/
def Table.shareOf (t : Table) (l : Limits) : ℚ :=
  if t.columns.length = 0 then 0 else t.remainingOf l / (t.columns.length : ℚ)

/-- The final column widths: every intrinsic width plus the share (line
333). -/
def Table.metricsColsOf (t : Table) (l : Limits) : List ℚ :=
  (t.pass1Of l).1.map (fun v => v + t.shareOf l)

/-- The `height_unit` of pass 2 (lines 338 to 344). -/
def Table.heightUnitOf (t : Table) (l : Limits) : ℚ :=
  if (t.totsOf l).2 = 0 then 0
  else ((t.availHOf l - (t.totsOf l).1)
      - t.spYOf * ((t.rowsCount - 1 : Nat) : ℚ) - t.paddingY * 2)
    / ((t.totsOf l).2 : ℚ)

/-- The final row heights after pass 2. -/
def Table.metricsRowsOf (t : Table) (l : Limits) : List ℚ :=
  pass2Go (t.availWOf l) (t.availHOf l) t.spXOf t.spYOf t.paddingX
    (t.heightUnitOf l) (t.metricsColsOf l) t.paddingY t.rowsOf
    ((t.pass1Of l).2.1.map Prod.fst)

/-- The complete third pass: all cell origins and the final x cursor. -/
def Table.pass3Of (t : Table) (l : Limits) : List (List (ℚ × ℚ)) × ℚ :=
  pass3Go t.spXOf t.spYOf t.paddingX (t.metricsColsOf l) t.paddingX
    t.paddingY (t.metricsRowsOf l)

/-- The intrinsic overall size before resolution (lines 422 to 434): the
final x cursor minus one horizontal gap plus the left padding, by the top
and bottom padding plus the summed row heights plus the inter-row gaps
minus the last added vertical separator. -/
def Table.rawSizeOf (t : Table) (l : Limits) : ℚ × ℚ :=
  ((t.pass3Of l).2 - t.spXOf + t.paddingX,
   t.paddingY * 2 + (t.metricsRowsOf l).sum
     + t.spYOf * ((t.rowsCount - 1 : Nat) : ℚ) - t.separatorY)

/-- The body of `Table::layout` (lines 239 to 437 of the source),
assembled from the stage functions above. -/
def Table.layoutCore (t : Table) (l : Limits) : LayoutOut :=
  { intrinsicCols := (t.pass1Of l).1,
    rowData := (t.pass1Of l).2.1,
    p1Sizes := (t.pass1Of l).2.2,
    totalFluid := (t.totsOf l).1,
    totalFactors := (t.totsOf l).2,
    contentAvailable := t.contentAvailableOf l,
    remaining := t.remainingOf l,
    share := t.shareOf l,
    metricsCols := t.metricsColsOf l,
    heightUnit := t.heightUnitOf l,
    metricsRows := t.metricsRowsOf l,
    origins := (t.pass3Of l).1,
    width := ((t.limsOf l).resolve t.width t.height (t.rawSizeOf l)).1,
    height := ((t.limsOf l).resolve t.width t.height (t.rawSizeOf l)).2 }

/-- The source `Table::layout` with its panic behaviour made explicit: with zero
columns the source evaluates `self.cells.len() / columns`, an integer
division by zero, which panics; and when the cell list length is not a
multiple of the column count (impossible for tables built by
`Table::new`), the trailing cells index `metrics.rows` out of bounds in
pass 2, which also panics.  Both are modelled as `none`. -/
def Table.layout (t : Table) (l : Limits) : Option LayoutOut :=
  if t.columns.length = 0 then none
  else if t.cells.length % t.columns.length = 0 then some (t.layoutCore l)
  else none

/-- An axis-aligned rectangle with origin, width and height. -/
structure Rect where
  x : ℚ
  y : ℚ
  w : ℚ
  h : ℚ
deriving DecidableEq

/-- The vertical separator rectangles of `Table::draw`: one rectangle
after each column except the last, at the advancing x cursor, spanning
the full bounds height (lines 482 to 504). -/
def vSepGo (padX sepX bx by0 bh : ℚ) : ℚ → List ℚ → List Rect
  | _, [] => []
  | x, wv :: ws =>
    let x1 := x + wv + padX
    ({ x := bx + x1, y := by0, w := sepX, h := bh } : Rect)
      :: vSepGo padX sepX bx by0 bh (x1 + sepX + padX) ws

/-- The horizontal separator rectangles of `Table::draw`: one rectangle
after each row except the last, at the advancing y cursor, spanning the
full bounds width (lines 506 to 528). -/
def hSepGo (padY sepY bx by0 bw : ℚ) : ℚ → List ℚ → List Rect
  | _, [] => []
  | y, hv :: hs =>
    let y1 := y + hv + padY
    ({ x := bx, y := by0 + y1, w := bw, h := sepY } : Rect)
      :: hSepGo padY sepY bx by0 bw (y1 + sepY + padY) hs

/-- The separator rectangles filled by `Table::draw`, given the table
bounds and the metrics of the last layout call: each family is drawn only
when its separator thickness is positive, and iterates over all column
widths (resp. row heights) except the last. -/
def Table.drawSeps (t : Table) (b : Rect) (mcols mrows : List ℚ) :
    List Rect × List Rect :=
  ((if 0 < t.separatorX then
      vSepGo t.paddingX t.separatorX b.x b.y b.h t.paddingX mcols.dropLast
    else []),
   (if 0 < t.separatorY then
      hSepGo t.paddingY t.separatorY b.x b.y b.w t.paddingY mrows.dropLast
    else []))

/-- A cell that shrinks on both axes and always reports the given
intrinsic size, per the measurement boundary contract. -/
def shrinkCell (w h : ℚ) : Cell :=
  { widthPolicy := .shrink, heightPolicy := .shrink, sizeHintH := .shrink,
    measure := fun _ => (w, h) }

/-- A cell with a proportional fill height policy that reports the given
intrinsic width and takes the full height bound it is offered, as a
fill-height widget does. -/
def fillHeightCell (w : ℚ) (f : Nat) : Cell :=
  { widthPolicy := .shrink, heightPolicy := .fillPortion f,
    sizeHintH := .fillPortion f,
    measure := fun l => (w, l.maxH) }

/-- The concrete scenario of spec section 8: two shrink columns, two
rows, all four cells intrinsically 50 by 20, paddings 10 and 5,
separators 1, maximum width 500. -/
def c2Table : Table :=
  { columns := [{ width := .shrink, alignX := .left, alignY := .top },
                { width := .shrink, alignX := .left, alignY := .top }],
    cells := [shrinkCell 50 20, shrinkCell 50 20,
              shrinkCell 50 20, shrinkCell 50 20],
    width := .shrink, height := .shrink, maxWidth := .fixed 500,
    paddingX := 10, paddingY := 5, separatorX := 1, separatorY := 1 }

/-- Limits offering 500 by 200, as in the two-column concrete scenario. -/
def limitsC2 : Limits :=
  { minW := 0, minH := 0, maxW := 500, maxH := 200 }

/-- The concrete scenario of spec section 8: one column, three rows, the
middle row carrying a fill factor of 2, the others intrinsically 20
high. -/
def c5Table : Table :=
  { columns := [{ width := .shrink, alignX := .left, alignY := .top }],
    cells := [shrinkCell 30 20, fillHeightCell 30 2, shrinkCell 30 20],
    width := .shrink, height := .shrink, maxWidth := .fill,
    paddingX := 10, paddingY := 5, separatorX := 1, separatorY := 1 }

/-- Limits offering 400 by 100, as in the fill-factor concrete
scenario. -/
def limitsC5 : Limits :=
  { minW := 0, minH := 0, maxW := 400, maxH := 100 }

/-- An over-constrained table: one column, a 50 high intrinsic header row
and a fluid row of factor 1, with only 10 of available height. -/
def negTable : Table :=
  { columns := [{ width := .shrink, alignX := .left, alignY := .top }],
    cells := [shrinkCell 10 50, fillHeightCell 10 1],
    width := .shrink, height := .shrink, maxWidth := .fill,
    paddingX := 10, paddingY := 5, separatorX := 1, separatorY := 1 }

/-- Limits offering 100 by 10, over-constrained in height for
`negTable`. -/
def limitsNeg : Limits :=
  { minW := 0, minH := 0, maxW := 100, maxH := 10 }

/-- The two-column scenario table with its vertical separator thickness
set to zero through the builder setter. -/
def c9Table : Table :=
  c2Table.setSeparatorX 0

/-- Arbitrary drawing bounds for the separator geometry. -/
def boundsC9 : Rect :=
  { x := 0, y := 0, w := 500, h := 60 }

/-- A chunked cell list has exactly the requested number of rows. -/
theorem chunkRows_length (c : Nat) (cs : List Cell) (r : Nat) :
    (chunkRows c cs r).length = r := by
  induction r generalizing cs with
  | zero => rfl
  | succ n ih => simp [chunkRows, ih]

/-- When the cell list length is an exact multiple of the column count,
every chunked row has exactly the column count of cells. -/
theorem chunkRows_mem_length (c : Nat) (cs : List Cell) (r : Nat)
    (h : cs.length = r * c) :
    ∀ row ∈ chunkRows c cs r, row.length = c := by
  induction r generalizing cs with
  | zero => intro row hrow; simp [chunkRows] at hrow
  | succ n ih =>
    intro row hrow
    rw [Nat.succ_mul] at h
    simp only [chunkRows, List.mem_cons] at hrow
    rcases hrow with rfl | hrow
    · rw [List.length_take]; omega
    · exact ih (cs.drop c) (by rw [List.length_drop]; omega) row hrow

/-- The rows of a table all have the column count of cells, given the
row-major multiple invariant. -/
theorem Table.rowsOf_mem_length (t : Table)
    (hm : t.cells.length % t.columns.length = 0) :
    ∀ row ∈ t.rowsOf, row.length = t.columns.length :=
  chunkRows_mem_length _ _ _
    (by rw [Nat.div_mul_cancel (Nat.dvd_of_mod_eq_zero hm)])

/-- The table has `rowsCount` rows. -/
theorem Table.rowsOf_length (t : Table) : t.rowsOf.length = t.rowsCount :=
  chunkRows_length _ _ _

/-- Pass 1 produces one measured size per cell of a row. -/
theorem pass1RowGo_length (availW availH spX y : ℚ) (x : ℚ) (cs : List Cell) :
    (pass1RowGo availW availH spX y x cs).length = cs.length := by
  induction cs generalizing x with
  | nil => rfl
  | cons c t ih => simp [pass1RowGo, ih]

/-- Pass 1 preserves the length of the column metrics vector. -/
theorem pass1Go_cols_length (availW availH spX spY padX : ℚ) (n : Nat)
    (y : ℚ) (colsAcc : List ℚ) (rowsL : List (List Cell))
    (hacc : colsAcc.length = n) (hall : ∀ r ∈ rowsL, r.length = n) :
    (pass1Go availW availH spX spY padX y colsAcc rowsL).1.length = n := by
  induction rowsL generalizing y colsAcc with
  | nil => simpa [pass1Go]
  | cons row rs ih =>
    simp only [pass1Go]
    refine ih _ _ ?_ (fun r2 h2 => hall r2 (List.mem_cons_of_mem row h2))
    rw [List.length_zipWith, List.length_map, pass1RowGo_length,
      hall row (List.mem_cons_self row rs), hacc, Nat.min_self]

/-- Pass 1 produces one row record per row. -/
theorem pass1Go_rowData_length (availW availH spX spY padX : ℚ)
    (y : ℚ) (colsAcc : List ℚ) (rowsL : List (List Cell)) :
    (pass1Go availW availH spX spY padX y colsAcc rowsL).2.1.length
      = rowsL.length := by
  induction rowsL generalizing y colsAcc with
  | nil => rfl
  | cons row rs ih => simp [pass1Go, ih]

/-- Pass 1 produces one size list per row. -/
theorem pass1Go_sizes_length (availW availH spX spY padX : ℚ)
    (y : ℚ) (colsAcc : List ℚ) (rowsL : List (List Cell)) :
    (pass1Go availW availH spX spY padX y colsAcc rowsL).2.2.length
      = rowsL.length := by
  induction rowsL generalizing y colsAcc with
  | nil => rfl
  | cons row rs ih => simp [pass1Go, ih]

/-- Pass 2 produces one final height per row. -/
theorem pass2Go_length (availW availH spX spY padX hu : ℚ) (ws : List ℚ)
    (y : ℚ) (rowsL : List (List Cell)) (hs : List ℚ)
    (h : rowsL.length = hs.length) :
    (pass2Go availW availH spX spY padX hu ws y rowsL hs).length
      = rowsL.length := by
  induction rowsL generalizing y hs with
  | nil => rfl
  | cons row rs ih =>
    cases hs with
    | nil => simp at h
    | cons h0 ht => simp [pass2Go, ih _ ht (by simpa using h)]

/-- The final column width metrics have one entry per column. -/
theorem Table.metricsCols_length (t : Table) (l : Limits)
    (hm : t.cells.length % t.columns.length = 0) :
    (t.metricsColsOf l).length = t.columns.length := by
  unfold Table.metricsColsOf Table.pass1Of
  rw [List.length_map]
  exact pass1Go_cols_length _ _ _ _ _ _ _ _ _
    (List.length_replicate _ _) (t.rowsOf_mem_length hm)

/-- The final row height metrics have one entry per row. -/
theorem Table.metricsRows_length (t : Table) (l : Limits) :
    (t.metricsRowsOf l).length = t.rowsCount := by
  unfold Table.metricsRowsOf
  rw [pass2Go_length _ _ _ _ _ _ _ _ _ _
    (by rw [List.length_map, Table.pass1Of, pass1Go_rowData_length]),
    t.rowsOf_length]

/-- The fluid running totals equal the sum of intrinsic heights over rows
with a positive factor and the sum of all row factors. -/
theorem fluidTotals_spec (rs : List (ℚ × Nat)) (a : ℚ) (b : Nat) :
    fluidTotals rs (a, b)
      = (a + ((rs.filter (fun p => 0 < p.2)).map Prod.fst).sum,
         b + (rs.map Prod.snd).sum) := by
  induction rs generalizing a b with
  | nil => simp [fluidTotals]
  | cons p t ih =>
    obtain ⟨h, f⟩ := p
    by_cases hf : f = 0
    · subst hf
      simp [fluidTotals, ih]
    · have hpos : 0 < f := Nat.pos_of_ne_zero hf
      simp only [fluidTotals, if_pos hf, ih, List.filter_cons, List.map_cons,
        List.sum_cons]
      rw [if_pos (by simpa using hpos)]
      simp only [List.map_cons, List.sum_cons, Prod.mk.injEq]
      exact ⟨by ring, by omega⟩

/-- Mapping the first projection commutes with an indexed read. -/
theorem getD_map_fst (sl : List (ℚ × ℚ)) (j : Nat) :
    (sl.map Prod.fst).getD j 0 = (sl.getD j (0, 0)).1 := by
  induction sl generalizing j with
  | nil => simp [List.getD_nil]
  | cons a t ih =>
    cases j with
    | zero => simp [List.getD_cons_zero]
    | succ n => simp only [List.map_cons, List.getD_cons_succ]; exact ih n

/-- Reading a pointwise max of two equally long lists is the max of the
reads. -/
theorem zipWith_maxQ_getD (as bs : List ℚ) (j : Nat)
    (h : as.length = bs.length) :
    (List.zipWith maxQ as bs).getD j 0 = max (as.getD j 0) (bs.getD j 0) := by
  induction as generalizing bs j with
  | nil =>
    cases bs with
    | nil => simp [List.getD_nil]
    | cons b u => simp at h
  | cons a t ih =>
    cases bs with
    | nil => simp at h
    | cons b u =>
      cases j with
      | zero => simp [List.getD_cons_zero, maxQ_eq_max]
      | succ n =>
        simp only [List.zipWith_cons_cons, List.getD_cons_succ]
        exact ih u n (by simpa using h)

/-- Reading a mapped shift by the share is the shifted read, inside the
length. -/
theorem getD_map_add (ws : List ℚ) (s : ℚ) (j : Nat) (hj : j < ws.length) :
    (ws.map (fun v => v + s)).getD j 0 = ws.getD j 0 + s := by
  induction ws generalizing j with
  | nil => simp at hj
  | cons a t ih =>
    cases j with
    | zero => simp [List.getD_cons_zero]
    | succ n =>
      simp only [List.map_cons, List.getD_cons_succ]
      exact ih n (by simpa using hj)

/-- Reading past the end of a list gives the default. -/
theorem getD_of_length_le {α : Type} (ws : List α) (d : α) (j : Nat)
    (hj : ws.length ≤ j) : ws.getD j d = d := by
  induction ws generalizing j with
  | nil => simp [List.getD_nil]
  | cons a t ih =>
    cases j with
    | zero => simp at hj
    | succ n => simp only [List.getD_cons_succ]; exact ih n (by simpa using hj)

/-- Reading a zero vector gives zero. -/
theorem getD_replicate_zero (n j : Nat) :
    (List.replicate n (0 : ℚ)).getD j 0 = 0 := by
  induction n generalizing j with
  | zero => simp [List.replicate, List.getD_nil]
  | succ m ih =>
    cases j with
    | zero => simp [List.replicate, List.getD_cons_zero]
    | succ k => simp only [List.replicate, List.getD_cons_succ]; exact ih k

/-- The pass 1 row intrinsic height is the fold of max over the heights
of the zero-factor cells; the redundant non-fill test of the source is
absorbed, since a zero fill factor already implies a non-fill policy. -/
theorem rowIntrinsicH_spec (lst : List (Cell × (ℚ × ℚ))) (a : ℚ) :
    rowIntrinsicH lst a
      = List.foldl max a
          ((lst.filter (fun p => p.1.heightPolicy.fillFactor = 0)).map
            (fun p => p.2.2)) := by
  induction lst generalizing a with
  | nil => rfl
  | cons p t ih =>
    obtain ⟨c, sz⟩ := p
    by_cases hcond : c.heightPolicy.fillFactor = 0
    · have hfill : c.heightPolicy.isFill = false := by
        simp [Length.isFill, hcond]
      simp [rowIntrinsicH, hcond, hfill, List.filter_cons, ih, maxQ_eq_max]
    · have hnot : ¬(c.heightPolicy.fillFactor = 0
          ∧ c.heightPolicy.isFill = false) := fun hb => hcond hb.1
      simp [rowIntrinsicH, hnot, hcond, List.filter_cons, ih]

/-- The pass 1 row factor is the fold of max over the declared height
fill factors of the cells of the row. -/
theorem rowFactorOf_spec (cs : List Cell) (a : Nat) :
    rowFactorOf cs a
      = List.foldl max a (cs.map (fun c => c.heightPolicy.fillFactor)) := by
  induction cs generalizing a with
  | nil => rfl
  | cons c t ih => simp [rowFactorOf, ih]

/-- Each pass 1 row record consists of the intrinsic height and factor
computed from the corresponding row and its emitted size list. -/
theorem pass1Go_rowData_getD (availW availH spX spY padX : ℚ) (y : ℚ)
    (colsAcc : List ℚ) (rowsL : List (List Cell)) (r : Nat) :
    (pass1Go availW availH spX spY padX y colsAcc rowsL).2.1.getD r (0, 0)
      = (rowIntrinsicH ((rowsL.getD r []).zip
            ((pass1Go availW availH spX spY padX y colsAcc rowsL).2.2.getD r [])) 0,
         rowFactorOf (rowsL.getD r []) 0) := by
  induction rowsL generalizing y colsAcc r with
  | nil => simp [pass1Go, List.getD_nil, rowIntrinsicH, rowFactorOf]
  | cons row rs ih =>
    cases r with
    | zero => simp [pass1Go, List.getD_cons_zero]
    | succ n =>
      simp only [pass1Go, List.getD_cons_succ]
      exact ih _ _ n

/-- The pass 1 column metrics are the fold of max, over the rows, of the
measured width at each column index, starting from the initial
accumulator entry. -/
theorem pass1Go_cols_getD (availW availH spX spY padX : ℚ) (n : Nat)
    (y : ℚ) (colsAcc : List ℚ) (rowsL : List (List Cell)) (j : Nat)
    (hacc : colsAcc.length = n) (hall : ∀ r ∈ rowsL, r.length = n) :
    (pass1Go availW availH spX spY padX y colsAcc rowsL).1.getD j 0
      = List.foldl max (colsAcc.getD j 0)
          ((pass1Go availW availH spX spY padX y colsAcc rowsL).2.2.map
            (fun szs => (szs.getD j (0, 0)).1)) := by
  induction rowsL generalizing y colsAcc with
  | nil => simp [pass1Go]
  | cons row rs ih =>
    have hrow : row.length = n := hall row (List.mem_cons_self row rs)
    have hacc2 : (List.zipWith maxQ colsAcc
        ((pass1RowGo availW availH spX y padX row).map Prod.fst)).length = n := by
      rw [List.length_zipWith, List.length_map, pass1RowGo_length, hrow, hacc,
        Nat.min_self]
    simp only [pass1Go, List.map_cons, List.foldl_cons]
    rw [ih _ _ hacc2 (fun r2 h2 => hall r2 (List.mem_cons_of_mem row h2))]
    congr 1
    rw [zipWith_maxQ_getD _ _ _
      (by rw [hacc, List.length_map, pass1RowGo_length, hrow]), getD_map_fst]

/-- The pass 3 x cursor of one row advances by each column width plus the
horizontal gap. -/
theorem pass3RowGo_snd (spX y x : ℚ) (ws : List ℚ) :
    (pass3RowGo spX y x ws).2 = x + (ws.map (fun w => w + spX)).sum := by
  induction ws generalizing x with
  | nil => simp [pass3RowGo]
  | cons w t ih => simp [pass3RowGo, ih]; ring

/-- After a non-empty pass 3, the x cursor sits at the left padding plus
the gapped column widths of the last row. -/
theorem pass3Go_snd (spX spY padX : ℚ) (ws : List ℚ) (x y : ℚ)
    (hs : List ℚ) (hne : hs ≠ []) :
    (pass3Go spX spY padX ws x y hs).2
      = padX + (ws.map (fun w => w + spX)).sum := by
  induction hs generalizing x y with
  | nil => exact absurd rfl hne
  | cons h t ih =>
    cases t with
    | nil => simp [pass3Go, pass3RowGo_snd]
    | cons h2 t2 =>
      simp only [pass3Go]
      exact ih (pass3RowGo spX y padX ws).2 (y + h + spY) (by simp)

/-- Summing a constant shift over a list adds the length times the
shift. -/
theorem sum_map_add_const (ws : List ℚ) (c : ℚ) :
    (ws.map (fun w => w + c)).sum = ws.sum + (ws.length : ℚ) * c := by
  induction ws with
  | nil => simp
  | cons a t ih =>
    simp only [List.map_cons, List.sum_cons, List.length_cons, ih]
    push_cast
    ring

/-- One vertical separator rectangle is produced per listed column
width. -/
theorem vSepGo_length (padX sepX bx by0 bh : ℚ) (x : ℚ) (ws : List ℚ) :
    (vSepGo padX sepX bx by0 bh x ws).length = ws.length := by
  induction ws generalizing x with
  | nil => rfl
  | cons w t ih => simp [vSepGo, ih]

/-- One horizontal separator rectangle is produced per listed row
height. -/
theorem hSepGo_length (padY sepY bx by0 bw : ℚ) (y : ℚ) (hs : List ℚ) :
    (hSepGo padY sepY bx by0 bw y hs).length = hs.length := by
  induction hs generalizing y with
  | nil => rfl
  | cons h t ih => simp [hSepGo, ih]

/-- A policy is a fill policy when it is fill or a fill portion. -/
def Length.isFillish : Length → Bool
  | .fill => true
  | .fillPortion _ => true
  | .shrink => false
  | .fixed _ => false

/-- Folding `enclose` from shrink over non-fill policies stays shrink. -/
theorem foldl_enclose_shrink (ws : List Length)
    (h : ∀ w ∈ ws, w.isFillish = false) :
    ws.foldl Length.enclose Length.shrink = Length.shrink := by
  induction ws with
  | nil => rfl
  | cons a t ih =>
    have ha := h a (List.mem_cons_self a t)
    have hstep : Length.enclose Length.shrink a = Length.shrink := by
      cases a with
      | fill => simp [Length.isFillish] at ha
      | fillPortion n => simp [Length.isFillish] at ha
      | shrink => rfl
      | fixed q => rfl
    rw [List.foldl_cons, hstep]
    exact ih (fun w hw => h w (List.mem_cons_of_mem a hw))

/-- The evenly distributed share is never negative. -/
theorem Table.shareOf_nonneg (t : Table) (l : Limits) : 0 ≤ t.shareOf l := by
  unfold Table.shareOf
  split
  · exact le_refl 0
  · exact div_nonneg (le_max_left _ _) (by positivity)

/-- Evaluation of the share in the two-column concrete scenario. -/
theorem c2_share_eval : (c2Table.layoutCore limitsC2).share = 359 / 2 := by
  show c2Table.shareOf limitsC2 = 359 / 2
  norm_num [Table.shareOf, Table.remainingOf, Table.contentAvailableOf,
    Table.pass1Of, pass1Go, pass1RowGo, pass1Cell, rowIntrinsicH, rowFactorOf,
    Table.rowsOf, chunkRows, Table.availWOf, Table.availHOf, Table.maxWOf,
    Table.limsOf, Table.spXOf, Table.spYOf, Table.rowsCount, Limits.widthLen,
    Limits.heightLen, Limits.resolve, clampQ, maxQ, minQ, c2Table, limitsC2,
    shrinkCell, Length.fillFactor, Length.isFill, List.replicate_succ,
    List.replicate_zero]

/-- Evaluation of the final column widths in the two-column concrete
scenario. -/
theorem c2_metricsCols_eval :
    (c2Table.layoutCore limitsC2).metricsCols = [459 / 2, 459 / 2] := by
  show c2Table.metricsColsOf limitsC2 = [459 / 2, 459 / 2]
  norm_num [Table.metricsColsOf, Table.shareOf, Table.remainingOf,
    Table.contentAvailableOf, Table.pass1Of, pass1Go, pass1RowGo, pass1Cell,
    rowIntrinsicH, rowFactorOf, Table.rowsOf, chunkRows, Table.availWOf,
    Table.availHOf, Table.maxWOf, Table.limsOf, Table.spXOf, Table.spYOf,
    Table.rowsCount, Limits.widthLen, Limits.heightLen, Limits.resolve,
    clampQ, maxQ, minQ, c2Table, limitsC2, shrinkCell, Length.fillFactor,
    Length.isFill, List.replicate_succ, List.replicate_zero]

/-- Evaluation of the resolved overall width in the two-column concrete
scenario. -/
theorem c2_width_eval : (c2Table.layoutCore limitsC2).width = 500 := by
  show ((c2Table.limsOf limitsC2).resolve c2Table.width c2Table.height
    (c2Table.rawSizeOf limitsC2)).1 = 500
  norm_num [Table.rawSizeOf, Table.pass3Of, pass3Go, pass3RowGo,
    Table.metricsRowsOf, pass2Go, pass2RowGo, pass2Cell, Table.heightUnitOf,
    Table.totsOf, fluidTotals, Table.metricsColsOf, Table.shareOf,
    Table.remainingOf, Table.contentAvailableOf, Table.pass1Of, pass1Go,
    pass1RowGo, pass1Cell, rowIntrinsicH, rowFactorOf, Table.rowsOf,
    chunkRows, Table.availWOf, Table.availHOf, Table.maxWOf, Table.limsOf,
    Table.spXOf, Table.spYOf, Table.rowsCount, Limits.widthLen,
    Limits.heightLen, Limits.resolve, clampQ, maxQ, minQ, c2Table, limitsC2,
    shrinkCell, Length.fillFactor, Length.isFill, List.replicate_succ,
    List.replicate_zero]

/-- Evaluation of the pass 1 row records in the fill-factor concrete
scenario. -/
theorem c5_rowData_eval :
    (c5Table.layoutCore limitsC5).rowData = [(20, 0), (0, 2), (20, 0)] := by
  show (c5Table.pass1Of limitsC5).2.1 = [(20, 0), (0, 2), (20, 0)]
  norm_num [Table.pass1Of, pass1Go, pass1RowGo, pass1Cell, rowIntrinsicH,
    rowFactorOf, Table.rowsOf, chunkRows, Table.availWOf, Table.availHOf,
    Table.limsOf, Table.spXOf, Table.spYOf, Table.rowsCount, Limits.widthLen,
    Limits.heightLen, Limits.resolve, clampQ, maxQ, minQ, c5Table, limitsC5,
    shrinkCell, fillHeightCell, Length.fillFactor, Length.isFill,
    List.replicate_succ, List.replicate_zero]

/-- Evaluation of the height unit in the fill-factor concrete
scenario. -/
theorem c5_heightUnit_eval : (c5Table.layoutCore limitsC5).heightUnit = 34 := by
  show c5Table.heightUnitOf limitsC5 = 34
  norm_num [Table.heightUnitOf, Table.totsOf, fluidTotals, Table.pass1Of,
    pass1Go, pass1RowGo, pass1Cell, rowIntrinsicH, rowFactorOf, Table.rowsOf,
    chunkRows, Table.availWOf, Table.availHOf, Table.limsOf, Table.spXOf,
    Table.spYOf, Table.rowsCount, Limits.widthLen, Limits.heightLen,
    Limits.resolve, clampQ, maxQ, minQ, c5Table, limitsC5, shrinkCell,
    fillHeightCell, Length.fillFactor, Length.isFill, List.replicate_succ,
    List.replicate_zero]

/-- Evaluation of the final row heights in the fill-factor concrete
scenario. -/
theorem c5_metricsRows_eval :
    (c5Table.layoutCore limitsC5).metricsRows = [20, 68, 20] := by
  show c5Table.metricsRowsOf limitsC5 = [20, 68, 20]
  norm_num [Table.metricsRowsOf, pass2Go, pass2RowGo, pass2Cell,
    Table.heightUnitOf, Table.totsOf, fluidTotals, Table.metricsColsOf,
    Table.shareOf, Table.remainingOf, Table.contentAvailableOf, Table.pass1Of,
    pass1Go, pass1RowGo, pass1Cell, rowIntrinsicH, rowFactorOf, Table.rowsOf,
    chunkRows, Table.availWOf, Table.availHOf, Table.maxWOf, Table.limsOf,
    Table.spXOf, Table.spYOf, Table.rowsCount, Limits.widthLen,
    Limits.heightLen, Limits.resolve, clampQ, maxQ, minQ, c5Table, limitsC5,
    shrinkCell, fillHeightCell, Length.fillFactor, Length.isFill,
    List.replicate_succ, List.replicate_zero]

/-- C1: the spec demands that zero columns must not panic and degrade to
an empty zero by zero grid; the source instead evaluates
`self.cells.len() / columns` with a zero column count, an integer
division by zero that panics, modelled here as `layout` returning
`none` for every zero-column table, whatever the row data and limits. -/
theorem C1_zero_columns_layout_panics {α : Type} (rowsData : List α)
    (l : Limits) :
    (Table.new ([] : List (ColumnDesc α)) rowsData).layout l = none := rfl

/-- C2 counterexample: in the two-column concrete scenario the computed
share is 359/2 = 179.5, not the 229.5 = 459/2 the claim states. -/
theorem C2_share_counterexample :
    (c2Table.layout limitsC2).map LayoutOut.share = some ((359 : ℚ) / 2)
      ∧ (359 : ℚ) / 2 ≠ (459 : ℚ) / 2 := by
  constructor
  · rw [show c2Table.layout limitsC2 = some (c2Table.layoutCore limitsC2)
      from rfl]
    simp only [Option.map]
    rw [c2_share_eval]
  · norm_num

/-- C2 amended: in the two-column concrete scenario the call returns (no
panic); content available is 500 − 20 − 21 = 459, so the share is
(459 − 100) / 2 = 179.5 and each final column width is 50 + 179.5 =
229.5; the resolved grid width is 500, since each inter-column gap also
carries two paddings (10 + 229.5 + 10 + 1 + 10 + 229.5 + 10); and no
width is negative. -/
theorem C2_amended_scenario :
    c2Table.layout limitsC2 = some (c2Table.layoutCore limitsC2)
      ∧ (c2Table.layoutCore limitsC2).share = (359 : ℚ) / 2
      ∧ (c2Table.layoutCore limitsC2).metricsCols = [(459 : ℚ) / 2, (459 : ℚ) / 2]
      ∧ (c2Table.layoutCore limitsC2).width = 500
      ∧ (0 : ℚ) ≤ (c2Table.layoutCore limitsC2).width
      ∧ ∀ w ∈ (c2Table.layoutCore limitsC2).metricsCols, 0 ≤ w := by
  refine ⟨rfl, c2_share_eval, c2_metricsCols_eval, c2_width_eval, ?_, ?_⟩
  · rw [c2_width_eval]; norm_num
  · rw [c2_metricsCols_eval]
    intro w hw
    simp only [List.mem_cons, List.not_mem_nil, or_false] at hw
    rcases hw with h | h <;> rw [h] <;> norm_num

/-- C5 counterexample: in the fill-factor concrete scenario the computed
height unit is 34, not the 24 the claim states. -/
theorem C5_height_unit_counterexample :
    (c5Table.layoutCore limitsC5).heightUnit = 34 ∧ (34 : ℚ) ≠ 24 :=
  ⟨c5_heightUnit_eval, by norm_num⟩

/-- C5 amended: the non-fluid rows keep intrinsic height 20; the height
unit is (100 − 0 − 11·2 − 10) / 2 = 34, because each inter-row boundary
subtracts the full gap 2·padding + separator = 11 and only fluid rows
intrinsic heights (here 0) enter the fluid total; the fluid row final
height is 34·2 = 68. -/
theorem C5_amended_scenario :
    (c5Table.layoutCore limitsC5).rowData = [(20, 0), (0, 2), (20, 0)]
      ∧ (c5Table.layoutCore limitsC5).heightUnit = 34
      ∧ (c5Table.layoutCore limitsC5).metricsRows = [20, 68, 20] :=
  ⟨c5_rowData_eval, c5_heightUnit_eval, c5_metricsRows_eval⟩

/-- C10: every table built by `Table::new`, before any builder setter,
has horizontal padding 10, vertical padding 5, both separator
thicknesses 1, and an unbounded (fill) maximum width. -/
theorem C10_builder_defaults {α : Type} (cds : List (ColumnDesc α))
    (rowsData : List α) :
    (Table.new cds rowsData).paddingX = 10
      ∧ (Table.new cds rowsData).paddingY = 5
      ∧ (Table.new cds rowsData).separatorX = 1
      ∧ (Table.new cds rowsData).separatorY = 1
      ∧ (Table.new cds rowsData).maxWidth = Length.fill :=
  ⟨rfl, rfl, rfl, rfl, rfl⟩

/-- Evaluation of the pass 1 row records of the over-constrained table:
the header row measures at the 5 remaining available height, the fluid
row contributes no intrinsic height and factor 1. -/
theorem neg_rowData_eval :
    (negTable.layoutCore limitsNeg).rowData = [(5, 0), (0, 1)] := by
  show (negTable.pass1Of limitsNeg).2.1 = [(5, 0), (0, 1)]
  norm_num [Table.pass1Of, pass1Go, pass1RowGo, pass1Cell, rowIntrinsicH,
    rowFactorOf, Table.rowsOf, chunkRows, Table.availWOf, Table.availHOf,
    Table.limsOf, Table.spXOf, Table.spYOf, Table.rowsCount, Limits.widthLen,
    Limits.heightLen, Limits.resolve, clampQ, maxQ, minQ, negTable, limitsNeg,
    shrinkCell, fillHeightCell, Length.fillFactor, Length.isFill,
    List.replicate_succ, List.replicate_zero]

/-- Evaluation of the fluid totals of the over-constrained table. -/
theorem neg_tots_eval :
    (negTable.layoutCore limitsNeg).totalFluid = 0
      ∧ (negTable.layoutCore limitsNeg).totalFactors = 1 := by
  have h : negTable.totsOf limitsNeg = (0, 1) := by
    rw [Table.totsOf, show (negTable.pass1Of limitsNeg).2.1 = [(5, 0), (0, 1)]
      from neg_rowData_eval]
    norm_num [fluidTotals]
  exact ⟨by show (negTable.totsOf limitsNeg).1 = 0; rw [h],
    by show (negTable.totsOf limitsNeg).2 = 1; rw [h]⟩

/-- C3: for every layout call with at least one column and the row-major
cell invariant, the call returns (no panic); the content available is the
minimum of available and maximum width less twice the horizontal padding
and one horizontal gap per interior column boundary, clamped to zero; the
remaining space is the content available less the summed intrinsic
widths, clamped to zero; the share is the remaining space divided by the
column count; every final column width is its intrinsic width plus that
same share; and hence no final column width is below its intrinsic
width. -/
theorem C3_width_distribution (t : Table) (l : Limits)
    (hc : t.columns.length ≠ 0)
    (hm : t.cells.length % t.columns.length = 0) :
    t.layout l = some (t.layoutCore l)
      ∧ (t.layoutCore l).contentAvailable
          = max 0 (min (t.availWOf l) (t.maxWOf l) - 2 * t.paddingX
              - t.spXOf * ((t.columns.length - 1 : Nat) : ℚ))
      ∧ (t.layoutCore l).remaining
          = max 0 ((t.layoutCore l).contentAvailable
              - (t.layoutCore l).intrinsicCols.sum)
      ∧ (t.layoutCore l).share
          = (t.layoutCore l).remaining / (t.columns.length : ℚ)
      ∧ (t.layoutCore l).metricsCols
          = (t.layoutCore l).intrinsicCols.map
              (fun w => w + (t.layoutCore l).share)
      ∧ ∀ j, (t.layoutCore l).intrinsicCols.getD j 0
          ≤ (t.layoutCore l).metricsCols.getD j 0 := by
  refine ⟨?_, ?_, ?_, ?_, rfl, ?_⟩
  · unfold Table.layout
    rw [if_neg hc, if_pos hm]
  · show t.contentAvailableOf l
        = max 0 (min (t.availWOf l) (t.maxWOf l) - 2 * t.paddingX
            - t.spXOf * ((t.columns.length - 1 : Nat) : ℚ))
    rw [Table.contentAvailableOf, maxQ_eq_max, minQ_eq_min]
    congr 1
    ring
  · show t.remainingOf l
        = max 0 (t.contentAvailableOf l - (t.pass1Of l).1.sum)
    rw [Table.remainingOf, maxQ_eq_max]
  · show t.shareOf l = t.remainingOf l / (t.columns.length : ℚ)
    rw [Table.shareOf, if_neg hc]
  · intro j
    show (t.pass1Of l).1.getD j 0 ≤ (t.metricsColsOf l).getD j 0
    by_cases hj : j < (t.pass1Of l).1.length
    · rw [Table.metricsColsOf, getD_map_add _ _ _ hj]
      have hs := t.shareOf_nonneg l
      linarith
    · rw [getD_of_length_le _ _ _ (Nat.le_of_not_lt hj),
        getD_of_length_le _ _ _
          (by rw [Table.metricsColsOf, List.length_map]
              exact Nat.le_of_not_lt hj)]

/-- C3 witness at the two-column concrete scenario. -/
theorem C3_witness :
    c2Table.layout limitsC2 = some (c2Table.layoutCore limitsC2) :=
  (C3_width_distribution c2Table limitsC2 (by decide) (by decide)).1

/-- C4: for every layout call with at least one column, the total fluid
height is the sum of the intrinsic heights of the rows carrying a
positive fill factor, the total row factors is the sum of the per-row
factors, and the height unit is zero when the total factors are zero and
otherwise equals available height minus the total fluid height minus one
vertical gap per interior row boundary minus twice the vertical padding,
divided by the total factors, with no clamping, so it may be negative
under over-constrained input. -/
theorem C4_height_unit (t : Table) (l : Limits) (_hc : t.columns.length ≠ 0) :
    (t.layoutCore l).totalFluid
        = (((t.layoutCore l).rowData.filter (fun p => 0 < p.2)).map
            Prod.fst).sum
      ∧ (t.layoutCore l).totalFactors
          = ((t.layoutCore l).rowData.map Prod.snd).sum
      ∧ ((t.layoutCore l).totalFactors = 0 → (t.layoutCore l).heightUnit = 0)
      ∧ ((t.layoutCore l).totalFactors ≠ 0 →
          (t.layoutCore l).heightUnit
            = (t.availHOf l - (t.layoutCore l).totalFluid
                - t.spYOf * ((t.rowsCount - 1 : Nat) : ℚ) - 2 * t.paddingY)
              / (((t.layoutCore l).totalFactors : Nat) : ℚ)) := by
  refine ⟨?_, ?_, ?_, ?_⟩
  · show (t.totsOf l).1
        = (((t.pass1Of l).2.1.filter (fun p => 0 < p.2)).map Prod.fst).sum
    rw [Table.totsOf, fluidTotals_spec]
    exact zero_add _
  · show (t.totsOf l).2 = ((t.pass1Of l).2.1.map Prod.snd).sum
    rw [Table.totsOf, fluidTotals_spec]
    exact Nat.zero_add _
  · intro h
    have h2 : (t.totsOf l).2 = 0 := h
    show t.heightUnitOf l = 0
    rw [Table.heightUnitOf, if_pos h2]
  · intro h
    have h2 : ¬(t.totsOf l).2 = 0 := h
    show t.heightUnitOf l
        = (t.availHOf l - (t.totsOf l).1
            - t.spYOf * ((t.rowsCount - 1 : Nat) : ℚ) - 2 * t.paddingY)
          / (((t.totsOf l).2 : Nat) : ℚ)
    rw [Table.heightUnitOf, if_neg h2]
    congr 1
    ring

/-- C4 witness: at the over-constrained table the height unit is
negative, as the unclamped formula predicts. -/
theorem C4_witness_negative_height_unit :
    (negTable.layoutCore limitsNeg).heightUnit < 0 := by
  have h4 := C4_height_unit negTable limitsNeg (by decide)
  have hfac : (negTable.layoutCore limitsNeg).totalFactors ≠ 0 := by
    rw [neg_tots_eval.2]
    exact one_ne_zero
  rw [h4.2.2.2 hfac, neg_tots_eval.1, neg_tots_eval.2]
  norm_num [Table.availHOf, Table.limsOf, Limits.widthLen, Limits.heightLen,
    Table.spYOf, Table.rowsCount, negTable, limitsNeg, clampQ, maxQ, minQ]

/-- C6: when the column list is non-empty and no column declares a fill
or fill-portion width policy, the builder forces the first column width
to fill, for any row data. -/
theorem C6_first_column_forced_fill {α : Type} (cds : List (ColumnDesc α))
    (rowsData : List α) (hne : cds ≠ [])
    (hnf : ∀ c ∈ cds, c.width.isFillish = false) :
    ((Table.new cds rowsData).columns.map Column_.width).head?
      = some Length.fill := by
  obtain ⟨c0, rest, rfl⟩ := List.exists_cons_of_ne_nil hne
  have hw : (c0 :: rest).foldl (fun w c => w.enclose c.width) Length.shrink
      = Length.shrink := by
    rw [show ((c0 :: rest).foldl (fun w c => Length.enclose w c.width)
          Length.shrink)
        = (((c0 :: rest).map (fun c => c.width)).foldl Length.enclose
            Length.shrink)
      from (List.foldl_map _ _ _ _).symm]
    refine foldl_enclose_shrink _ ?_
    intro w hwm
    obtain ⟨c, hc, rfl⟩ := List.mem_map.mp hwm
    exact hnf c hc
  simp only [Table.new, hw, reduceIte, List.map_cons, List.head?_cons]

/-- C6 witness at a singleton shrink column. -/
theorem C6_witness :
    ((Table.new [mkColumn (shrinkCell 1 1) (fun _ : Unit => shrinkCell 1 1)]
        ([] : List Unit)).columns.map Column_.width).head?
      = some Length.fill :=
  C6_first_column_forced_fill _ _ (by simp)
    (by intro c hc
        rw [List.mem_singleton] at hc
        subst hc
        rfl)

/-- C8: after pass 1, each per-column intrinsic width is the running max
(from zero) of the measured widths of the cells of that column; each
per-row intrinsic height is the running max (from zero) of the measured
heights of exactly the zero-fill-factor cells of that row; and each
per-row factor is the running max (from zero) of the declared height
fill factors of the cells of that row. -/
theorem C8_pass1_metrics (t : Table) (l : Limits)
    (hm : t.cells.length % t.columns.length = 0) :
    (∀ j, (t.layoutCore l).intrinsicCols.getD j 0
        = List.foldl max 0 ((t.layoutCore l).p1Sizes.map
            (fun szs => (szs.getD j (0, 0)).1)))
      ∧ (∀ r, ((t.layoutCore l).rowData.getD r (0, 0)).1
          = List.foldl max 0
              ((((t.rowsOf.getD r []).zip
                  ((t.layoutCore l).p1Sizes.getD r [])).filter
                    (fun p => p.1.heightPolicy.fillFactor = 0)).map
                (fun p => p.2.2)))
      ∧ (∀ r, ((t.layoutCore l).rowData.getD r (0, 0)).2
          = List.foldl max 0
              ((t.rowsOf.getD r []).map
                (fun c => c.heightPolicy.fillFactor))) := by
  refine ⟨?_, ?_, ?_⟩
  · intro j
    show (t.pass1Of l).1.getD j 0
        = List.foldl max 0 ((t.pass1Of l).2.2.map
            (fun szs => (szs.getD j (0, 0)).1))
    rw [Table.pass1Of, pass1Go_cols_getD _ _ _ _ _ t.columns.length _ _ _ _
      (List.length_replicate _ _) (t.rowsOf_mem_length hm),
      getD_replicate_zero]
  · intro r
    show ((t.pass1Of l).2.1.getD r (0, 0)).1 = _
    rw [Table.pass1Of, pass1Go_rowData_getD, rowIntrinsicH_spec]
    rfl
  · intro r
    show ((t.pass1Of l).2.1.getD r (0, 0)).2 = _
    rw [Table.pass1Of, pass1Go_rowData_getD, rowFactorOf_spec]

/-- C8 witness: the first column intrinsic width of the two-column
concrete scenario is the running max of its measured widths. -/
theorem C8_witness :
    (c2Table.layoutCore limitsC2).intrinsicCols.getD 0 0
      = List.foldl max 0 ((c2Table.layoutCore limitsC2).p1Sizes.map
          (fun szs => (szs.getD 0 (0, 0)).1)) :=
  (C8_pass1_metrics c2Table limitsC2 (by decide)).1 0

/-- Evaluation of the final row heights in the two-column concrete
scenario. -/
theorem c2_metricsRows_eval :
    (c2Table.layoutCore limitsC2).metricsRows = [20, 20] := by
  show c2Table.metricsRowsOf limitsC2 = [20, 20]
  norm_num [Table.metricsRowsOf, pass2Go, pass2RowGo, pass2Cell,
    Table.heightUnitOf, Table.totsOf, fluidTotals, Table.metricsColsOf,
    Table.shareOf, Table.remainingOf, Table.contentAvailableOf, Table.pass1Of,
    pass1Go, pass1RowGo, pass1Cell, rowIntrinsicH, rowFactorOf, Table.rowsOf,
    chunkRows, Table.availWOf, Table.availHOf, Table.maxWOf, Table.limsOf,
    Table.spXOf, Table.spYOf, Table.rowsCount, Limits.widthLen,
    Limits.heightLen, Limits.resolve, clampQ, maxQ, minQ, c2Table, limitsC2,
    shrinkCell, Length.fillFactor, Length.isFill, List.replicate_succ,
    List.replicate_zero]

/-- The overall size exactly as claim C7 words it: on each axis, the
outer padding plus the summed final column widths (resp row heights)
plus one gap per interior boundary, minus one trailing separator
thickness, resolved against the declared width and height policies. -/
def claimedOverallSize (t : Table) (l : Limits) : ℚ × ℚ :=
  (t.limsOf l).resolve t.width t.height
    (t.paddingX * 2 + (t.layoutCore l).metricsCols.sum
       + t.spXOf * ((t.columns.length - 1 : Nat) : ℚ) - t.separatorX,
     t.paddingY * 2 + (t.layoutCore l).metricsRows.sum
       + t.spYOf * ((t.rowsCount - 1 : Nat) : ℚ) - t.separatorY)

/-- C7 counterexample: in the two-column concrete scenario the resolved
grid width is 500, but the claim formula, which removes a trailing
separator on the width axis as well, resolves to 499. -/
theorem C7_counterexample :
    (c2Table.layoutCore limitsC2).width = 500
      ∧ (claimedOverallSize c2Table limitsC2).1 = 499
      ∧ (500 : ℚ) ≠ 499 := by
  refine ⟨c2_width_eval, ?_, by norm_num⟩
  rw [claimedOverallSize, c2_metricsCols_eval, c2_metricsRows_eval]
  norm_num [Limits.resolve, Table.limsOf, Limits.widthLen, Limits.heightLen,
    clampQ, maxQ, minQ, Table.spXOf, Table.spYOf, Table.rowsCount, c2Table,
    limitsC2]

/-- C7 amended: the resolved overall size is, on the width axis, twice
the horizontal padding plus the summed final column widths plus one
horizontal gap per interior boundary, with no separator removed, and on
the height axis twice the vertical padding plus the summed final row
heights plus one vertical gap per interior boundary minus one trailing
vertical separator, resolved against the declared width and height
policies. -/
theorem C7_overall_size (t : Table) (l : Limits)
    (hc : t.columns.length ≠ 0)
    (hm : t.cells.length % t.columns.length = 0)
    (hne : t.cells ≠ []) :
    ((t.layoutCore l).width, (t.layoutCore l).height)
      = (t.limsOf l).resolve t.width t.height
          (t.paddingX * 2 + (t.layoutCore l).metricsCols.sum
             + t.spXOf * ((t.columns.length - 1 : Nat) : ℚ),
           t.paddingY * 2 + (t.layoutCore l).metricsRows.sum
             + t.spYOf * ((t.rowsCount - 1 : Nat) : ℚ) - t.separatorY) := by
  have hrows1 : 1 ≤ t.rowsCount := by
    unfold Table.rowsCount
    rw [Nat.one_le_div_iff (Nat.pos_of_ne_zero hc)]
    exact Nat.le_of_dvd (List.length_pos.mpr hne) (Nat.dvd_of_mod_eq_zero hm)
  have hmr : t.metricsRowsOf l ≠ [] := by
    intro h0
    have hl := t.metricsRows_length l
    rw [h0] at hl
    simp at hl
    omega
  have hcl : (t.metricsColsOf l).length = t.columns.length :=
    t.metricsCols_length l hm
  have hxfin : (t.pass3Of l).2
      = t.paddingX + ((t.metricsColsOf l).map (fun w => w + t.spXOf)).sum := by
    unfold Table.pass3Of
    exact pass3Go_snd _ _ _ _ _ _ _ hmr
  have h1 : 1 ≤ t.columns.length := Nat.one_le_iff_ne_zero.mpr hc
  have hcast : ((t.columns.length - 1 : Nat) : ℚ)
      = (t.columns.length : ℚ) - 1 := by
    rw [Nat.cast_sub h1, Nat.cast_one]
  show (t.limsOf l).resolve t.width t.height (t.rawSizeOf l) = _
  congr 1
  show t.rawSizeOf l = _
  unfold Table.rawSizeOf
  simp only [Prod.mk.injEq]
  refine ⟨?_, rfl⟩
  rw [show (t.layoutCore l).metricsCols = t.metricsColsOf l from rfl,
    hxfin, sum_map_add_const, hcl, hcast]
  ring

/-- C7 witness at the two-column concrete scenario. -/
theorem C7_witness :
    ((c2Table.layoutCore limitsC2).width, (c2Table.layoutCore limitsC2).height)
      = (c2Table.limsOf limitsC2).resolve c2Table.width c2Table.height
          (c2Table.paddingX * 2
             + (c2Table.layoutCore limitsC2).metricsCols.sum
             + c2Table.spXOf * ((c2Table.columns.length - 1 : Nat) : ℚ),
           c2Table.paddingY * 2
             + (c2Table.layoutCore limitsC2).metricsRows.sum
             + c2Table.spYOf * ((c2Table.rowsCount - 1 : Nat) : ℚ)
             - c2Table.separatorY) :=
  C7_overall_size c2Table limitsC2 (by decide) (by decide)
    (by simp [c2Table])

/-- C9 amended: with the metrics of a layout call, the draw pass fills
exactly one vertical separator per interior column boundary when the
vertical separator thickness is positive and none otherwise, and exactly
one horizontal separator per interior row boundary when the horizontal
separator thickness is positive and none otherwise. -/
theorem C9_separator_counts (t : Table) (l : Limits) (b : Rect)
    (hm : t.cells.length % t.columns.length = 0) :
    ((t.drawSeps b (t.layoutCore l).metricsCols
        (t.layoutCore l).metricsRows).1.length
      = if 0 < t.separatorX then t.columns.length - 1 else 0)
      ∧ ((t.drawSeps b (t.layoutCore l).metricsCols
          (t.layoutCore l).metricsRows).2.length
        = if 0 < t.separatorY then t.rowsCount - 1 else 0) := by
  constructor
  · show (if 0 < t.separatorX then
        vSepGo t.paddingX t.separatorX b.x b.y b.h t.paddingX
          ((t.metricsColsOf l).dropLast)
      else []).length = if 0 < t.separatorX then t.columns.length - 1 else 0
    by_cases hsep : 0 < t.separatorX
    · rw [if_pos hsep, if_pos hsep, vSepGo_length, List.length_dropLast,
        t.metricsCols_length l hm]
    · rw [if_neg hsep, if_neg hsep]
      rfl
  · show (if 0 < t.separatorY then
        hSepGo t.paddingY t.separatorY b.x b.y b.w t.paddingY
          ((t.metricsRowsOf l).dropLast)
      else []).length = if 0 < t.separatorY then t.rowsCount - 1 else 0
    by_cases hsep : 0 < t.separatorY
    · rw [if_pos hsep, if_pos hsep, hSepGo_length, List.length_dropLast,
        t.metricsRows_length l]
    · rw [if_neg hsep, if_neg hsep]
      rfl

/-- C9 witness at the two-column concrete scenario. -/
theorem C9_witness :
    (c2Table.drawSeps boundsC9 (c2Table.layoutCore limitsC2).metricsCols
        (c2Table.layoutCore limitsC2).metricsRows).1.length
      = if 0 < c2Table.separatorX then c2Table.columns.length - 1 else 0 :=
  (C9_separator_counts c2Table limitsC2 boundsC9 (by decide)).1

/-- C9 counterexample: with the vertical separator thickness set to zero
through the builder setter, the two-column table draws zero vertical
separators rather than one per interior boundary. -/
theorem C9_counterexample :
    c9Table.columns.length = 2
      ∧ (c9Table.drawSeps boundsC9 (c9Table.layoutCore limitsC2).metricsCols
          (c9Table.layoutCore limitsC2).metricsRows).1.length = 0
      ∧ (0 : Nat) ≠ 2 - 1 := by
  have hsep : ¬0 < c9Table.separatorX := by
    rw [show c9Table.separatorX = (0 : ℚ) from rfl]
    exact lt_irrefl 0
  refine ⟨rfl, ?_, by decide⟩
  show (if 0 < c9Table.separatorX then
      vSepGo c9Table.paddingX c9Table.separatorX boundsC9.x boundsC9.y
        boundsC9.h c9Table.paddingX ((c9Table.metricsColsOf limitsC2).dropLast)
    else []).length = 0
  rw [if_neg hsep]
  rfl
